import Mathlib

/-!
Shallow embedding of the `flexbuf` positional byte buffer (buffer.go) and
proofs about its specification claims.

A Go slice `b.buf` is modelled by the pair of fields `store` (the full
backing array, whose length is the Go capacity `cap(b.buf)`) and `len`
(the Go length `len(b.buf)`).  All reslicing in the Go code is of the form
`b.buf[:k]`, so the slice always starts at index 0 of the backing array and
`cap(b.buf)` is the backing array length.  Bytes are modelled as `Nat`
(no arithmetic is ever performed on byte values).  Go's `copy(dst, src)`
copies `min (len dst) (len src)` elements from the front of `src` over the
front of `dst`.  Operations that can panic in Go (out-of-range reslice)
return `Option`, with `none` standing for the panic.
-/

namespace Flexbuf

/-- The error values used by buffer.go: `io.EOF`, `ErrOutOfBounds`,
`os.ErrInvalid`, and an opaque collaborator error propagated by `ReadFrom`. -/
inductive GoError where
  | eof
  | outOfBounds
  | invalidArg
  | srcFail
deriving DecidableEq

/-- Result flag of one `Read` call on the collaborator source handed to
`ReadFrom`: a normal chunk, a chunk accompanied by `io.EOF`, or a chunk
accompanied by a non-EOF error. -/
inductive SFlag where
  | ok
  | eof
  | fail
deriving DecidableEq

/-- The buffer (struct `Buffer` in buffer.go).  `ext` is the Go field
`external`, `off` the current offset, and the Go slice `buf` is the pair
`store` (backing array = capacity) and `len` (logical length). -/
structure Buffer where
  ext : Bool
  off : Nat
  store : List Nat
  len : Nat
deriving DecidableEq

/-- Well-formedness of the slice model: the logical length never exceeds
the backing array length (in Go this holds for every slice by
construction). -/
abbrev Buffer.WF (b : Buffer) : Prop := b.len ≤ b.store.length

/-- The visible elements of the Go slice `b.buf`. -/
def Buffer.buf (b : Buffer) : List Nat := b.store.take b.len

/-- Go `len(b.buf)`, the public `Len()`. -/
def Buffer.Len (b : Buffer) : Nat := b.len

/-- Go `cap(b.buf)`, the public `Cap()`. -/
def Buffer.Cap (b : Buffer) : Nat := b.store.length

/-- The public `Offset()`. -/
def Buffer.Offset (b : Buffer) : Nat := b.off

/-- `With(data)`: a buffer initialized with caller data and offset 0. -/
def With (data : List Nat) : Buffer :=
  { ext := true, off := 0, store := data, len := data.length }

/-- A buffer built from `content` handed to `With` as a Go slice with
spare capacity (`make([]byte, n, n+extra)`); Go zero-fills the whole
allocation, so the spare region is zero. -/
def withCap (content : List Nat) (extra : Nat) : Buffer :=
  { ext := true, off := 0, store := content ++ List.replicate extra 0,
    len := content.length }

/-- The `Append` constructor option: sets the initial offset to the end of
the buffer. -/
def Append (b : Buffer) : Buffer := { b with off := b.len }

/-- Element access with Go's zero byte as default (used to state properties
about stored bytes). -/
def idx : List Nat → Nat → Nat
  | [], _ => 0
  | a :: _, 0 => a
  | _ :: l, i + 1 => idx l i

/-- The scratch region of the backing array beyond the logical length
reads as zero.  `Write`/`WriteAt`/`Truncate`/`Seek` preserve this;
allocation zero-fills; shrinking `Truncate` re-zeroes. -/
def Buffer.ZeroScratch (b : Buffer) : Prop :=
  ∀ i, b.len ≤ i → idx b.store i = 0

/-- `tryGrowByReslice` (buffer.go).  Go compares with signed ints:
`n <= len(b.buf)-b.off` is `n + off ≤ len` over ℤ, hence over ℕ. -/
def Buffer.tryGrowByReslice (b : Buffer) (n : Nat) : Buffer × Bool :=
  if n + b.off ≤ b.len then (b, true)
  else if n + b.off ≤ b.store.length then ({ b with len := b.off + n }, true)
  else (b, false)

/-- `grow` (buffer.go).  In the reallocation branch `ex = c + n - rc`
with `rc = c - off` equals `off + n` over ℤ; `makeSlice ex` yields a
zero-filled array of length (and capacity) `ex`, and `copy(tmp, b.buf)`
copies `min ex (len b.buf)` elements of the logical content. -/
def Buffer.grow (b : Buffer) (n : Nat) : Buffer :=
  match b.tryGrowByReslice n with
  | (b1, true) => b1
  | (_, false) =>
    let ex := b.off + n
    let tmp := List.replicate ex 0
    let m := min ex b.len
    { b with store := b.buf.take m ++ tmp.drop m, len := ex }

/-- `write` (buffer.go): grow for `len p` bytes after the offset, then
`copy(b.buf[b.off:], p)` (the destination view has length `len - off`,
which `grow` made at least `len p`), and advance the offset by the count
copied. -/
def Buffer.write (b : Buffer) (p : List Nat) : Buffer × Nat :=
  let b1 := b.grow p.length
  let n := min (b1.len - b1.off) p.length
  ({ b1 with
      store := b1.store.take b1.off ++ p.take n ++ b1.store.drop (b1.off + n),
      off := b1.off + n }, n)

/-- Public `Write`: returns the count and a nil error. -/
def Buffer.Write (b : Buffer) (p : List Nat) : Buffer × Nat × Option GoError :=
  ((b.write p).1, (b.write p).2, none)

/-- Public `WriteAt`: save the offset, write at the given offset, restore
the offset. -/
def Buffer.WriteAt (b : Buffer) (p : List Nat) (off : Nat) :
    Buffer × Nat × Option GoError :=
  let r := ({ b with off := off }).write p
  ({ r.1 with off := b.off }, r.2, none)

/-- Public `Read` into a destination of length `plen`; returns the read
bytes (their count is Go's `n`) and the error.  `none` models the panic of
the reslice `b.buf[b.off:]` when `b.off > len(b.buf)`. -/
def Buffer.Read (b : Buffer) (plen : Nat) :
    Option (Buffer × List Nat × Option GoError) :=
  if plen > 0 ∧ b.len ≤ b.off then some (b, [], some GoError.eof)
  else if b.off ≤ b.len then
    let n := min plen (b.len - b.off)
    let out := (b.buf.drop b.off).take n
    let b1 := { b with off := b.off + n }
    if 0 < b.len - (b.off + n) then some (b1, out, none)
    else some (b1, out, some GoError.eof)
  else none

/-- Public `ReadAt`: out-of-bounds error at or beyond the length,
otherwise delegate to `Read` at the requested offset and restore the
offset afterwards. -/
def Buffer.ReadAt (b : Buffer) (plen : Nat) (off : Nat) :
    Option (Buffer × List Nat × Option GoError) :=
  if b.len ≤ off then some (b, [], some GoError.outOfBounds)
  else
    match ({ b with off := off }).Read plen with
    | none => none
    | some (b1, out, e) => some ({ b1 with off := b.off }, out, e)

/-- The candidate offset computed by `Seek` for a whence of 0
(`io.SeekStart`), 1 (`io.SeekCurrent`) or 2 (`io.SeekEnd`); the Go
`switch` leaves the candidate at 0 for any other whence. -/
def Buffer.seekCandidate (b : Buffer) (offset : Int) (whence : Nat) : Int :=
  if whence = 0 then offset
  else if whence = 1 then (b.off : Int) + offset
  else if whence = 2 then (b.len : Int) + offset
  else 0

/-- Public `Seek`: a negative candidate offset is `os.ErrInvalid` and
leaves the buffer unchanged; otherwise the offset is set to the candidate
and returned. -/
def Buffer.Seek (b : Buffer) (offset : Int) (whence : Nat) :
    Buffer × Int × Option GoError :=
  let off := b.seekCandidate offset whence
  if off < 0 then (b, 0, some GoError.invalidArg)
  else ({ b with off := off.toNat }, off, none)

/-- Public `Truncate`: negative size is `os.ErrInvalid`; a size above the
length grows by `size - len` (after the offset!); otherwise the discarded
region `b.buf[size:]` is zeroed (`zeroOutSlice`) and the slice shortened. -/
def Buffer.Truncate (b : Buffer) (size : Int) : Buffer × Option GoError :=
  if size < 0 then (b, some GoError.invalidArg)
  else if b.len < size.toNat then (b.grow (size.toNat - b.len), none)
  else
    ({ b with
        store := b.store.take size.toNat
          ++ List.replicate (b.len - size.toNat) 0
          ++ b.store.drop b.len,
        len := size.toNat }, none)

/-- Public `Close`: reset the offset; a pool buffer (`ext = false`) has
its logical content zeroed in place (`zeroOutSlice(b.buf)`), an external
buffer is dropped (`b.buf = nil`).  Always a nil error. -/
def Buffer.Close (b : Buffer) : Buffer × Option GoError :=
  if b.ext then ({ b with off := 0, store := [], len := 0 }, none)
  else
    ({ b with
        off := 0,
        store := List.replicate b.len 0 ++ b.store.drop b.len }, none)

/-- A call of `Close` through a possibly nil `*Buffer` receiver: the Go
method body assigns `b.off = 0`, which dereferences the receiver, so a nil
receiver panics (`none`). -/
def closePtr : Option Buffer → Option (Buffer × Option GoError)
  | none => none
  | some b => some b.Close

/-- `bytes.MinRead`, the working increment of `ReadFrom`. -/
def MinRead : Nat := 512

/-- One iteration of the `ReadFrom` loop on a produced chunk: remember the
pre-iteration length `l`, grow by `MinRead` after the offset, copy the
chunk through the scratch buffer into the storage at the offset, advance
the offset by the reported count, and reslice to `l + n`.  `none` models
the panics: `tmp[:n]` with `n > len(tmp)` and `b.buf[:l+n]` with
`l + n > cap(b.buf)`. -/
def Buffer.readFromStep (b : Buffer) (chunk : List Nat) : Option Buffer :=
  let l := b.len
  let b1 := b.grow MinRead
  let n := chunk.length
  if n ≤ MinRead then
    let m := min (b1.len - b1.off) n
    if l + n ≤ b1.store.length then
      some { b1 with
        store := b1.store.take b1.off ++ chunk.take m
          ++ b1.store.drop (b1.off + m),
        off := b1.off + n,
        len := l + n }
    else none
  else none

/-- The `ReadFrom` loop over a script of source results, accumulating the
running total.  An empty script means the source never reported EOF or an
error within the modelled horizon (`none`). -/
def Buffer.readFromLoop :
    Buffer → List (List Nat × SFlag) → Nat → Option (Buffer × Nat × Option GoError)
  | _, [], _ => none
  | b, (chunk, flag) :: rest, total =>
    match b.readFromStep chunk with
    | none => none
    | some b2 =>
      match flag with
      | SFlag.eof => some (b2, total + chunk.length, none)
      | SFlag.fail => some (b2, total + chunk.length, some GoError.srcFail)
      | SFlag.ok => b2.readFromLoop rest (total + chunk.length)

/-- Public `ReadFrom` on a source described by its script of results. -/
def Buffer.ReadFrom (b : Buffer) (src : List (List Nat × SFlag)) :
    Option (Buffer × Nat × Option GoError) :=
  b.readFromLoop src 0

/-! ### Lemmas about `idx` -/

theorem idx_ge : ∀ (l : List Nat) (i : Nat), l.length ≤ i → idx l i = 0
  | [], _, _ => rfl
  | _ :: _, 0, h => absurd h (by simp)
  | _ :: l, i + 1, h => idx_ge l i (by simpa using h)

theorem idx_append_left :
    ∀ (l1 l2 : List Nat) (i : Nat), i < l1.length → idx (l1 ++ l2) i = idx l1 i
  | [], _, _, h => absurd h (by simp)
  | _ :: _, _, 0, _ => rfl
  | _ :: l1, l2, i + 1, h => idx_append_left l1 l2 i (by simpa using h)

theorem idx_append_right :
    ∀ (l1 l2 : List Nat) (i : Nat), l1.length ≤ i →
      idx (l1 ++ l2) i = idx l2 (i - l1.length)
  | [], _, _, _ => by simp
  | _ :: _, _, 0, h => absurd h (by simp)
  | _ :: l1, l2, i + 1, h => by
      simpa using idx_append_right l1 l2 i (by simpa using h)

theorem idx_replicate : ∀ (n i : Nat), idx (List.replicate n 0) i = 0
  | 0, _ => rfl
  | _ + 1, 0 => rfl
  | n + 1, i + 1 => by simpa [List.replicate] using idx_replicate n i

theorem idx_take : ∀ (l : List Nat) (n i : Nat), i < n → idx (l.take n) i = idx l i
  | [], _, _, _ => by simp
  | _ :: _, _ + 1, 0, _ => rfl
  | _ :: l, n + 1, i + 1, h => idx_take l n i (by omega)
  | _ :: _, 0, _, h => absurd h (by omega)

theorem idx_drop : ∀ (l : List Nat) (n i : Nat), idx (l.drop n) i = idx l (n + i)
  | [], _, _ => by rw [List.drop_nil]; rfl
  | _ :: _, 0, i => by rw [Nat.zero_add]; rfl
  | _ :: l, n + 1, i => by simpa [Nat.succ_add] using idx_drop l n i

/-- A checkable sufficient condition for `ZeroScratch`. -/
theorem zeroScratch_of_drop (b : Buffer)
    (h : b.store.drop b.len = List.replicate (b.store.length - b.len) 0) :
    b.ZeroScratch := by
  intro i hi
  have : idx b.store i = idx (b.store.drop b.len) (i - b.len) := by
    rw [idx_drop]
    congr 1
    omega
  rw [this, h, idx_replicate]

/-! ### Lemmas about `grow` -/

theorem grow_of_fits (b : Buffer) (n : Nat) (h : n + b.off ≤ b.len) :
    b.grow n = b := by
  simp [Buffer.grow, Buffer.tryGrowByReslice, h]

theorem grow_of_cap (b : Buffer) (n : Nat) (h1 : ¬ n + b.off ≤ b.len)
    (h2 : n + b.off ≤ b.store.length) :
    b.grow n = { b with len := b.off + n } := by
  simp [Buffer.grow, Buffer.tryGrowByReslice, h1, h2]

theorem grow_realloc (b : Buffer) (n : Nat) (h1 : ¬ n + b.off ≤ b.len)
    (h2 : ¬ n + b.off ≤ b.store.length) :
    b.grow n = { b with
      store := b.buf.take (min (b.off + n) b.len)
        ++ (List.replicate (b.off + n) 0).drop (min (b.off + n) b.len),
      len := b.off + n } := by
  simp [Buffer.grow, Buffer.tryGrowByReslice, h1, h2]

/-- Under well-formedness, the reallocation branch copies the whole logical
content and pads with zeros. -/
theorem grow_realloc_wf (b : Buffer) (n : Nat) (hb : b.WF)
    (h2 : ¬ n + b.off ≤ b.store.length) :
    (b.grow n).store
      = b.store.take b.len ++ List.replicate (b.off + n - b.len) 0 := by
  have h1 : ¬ n + b.off ≤ b.len := by omega
  have hlen : b.len ≤ b.off + n := by omega
  rw [grow_realloc b n h1 h2]
  simp only [Buffer.buf]
  rw [min_eq_right hlen, List.take_take, min_self, List.drop_replicate]

theorem grow_off (b : Buffer) (n : Nat) : (b.grow n).off = b.off := by
  by_cases h1 : n + b.off ≤ b.len
  · rw [grow_of_fits b n h1]
  · by_cases h2 : n + b.off ≤ b.store.length
    · rw [grow_of_cap b n h1 h2]
    · rw [grow_realloc b n h1 h2]

theorem grow_ext (b : Buffer) (n : Nat) : (b.grow n).ext = b.ext := by
  by_cases h1 : n + b.off ≤ b.len
  · rw [grow_of_fits b n h1]
  · by_cases h2 : n + b.off ≤ b.store.length
    · rw [grow_of_cap b n h1 h2]
    · rw [grow_realloc b n h1 h2]

theorem grow_len (b : Buffer) (n : Nat) :
    (b.grow n).len = if n + b.off ≤ b.len then b.len else b.off + n := by
  by_cases h1 : n + b.off ≤ b.len
  · rw [grow_of_fits b n h1, if_pos h1]
  · by_cases h2 : n + b.off ≤ b.store.length
    · rw [grow_of_cap b n h1 h2, if_neg h1]
    · rw [grow_realloc b n h1 h2, if_neg h1]

/-- `grow n` guarantees `n` bytes between the offset and the new length. -/
theorem le_grow_len (b : Buffer) (n : Nat) : b.off + n ≤ (b.grow n).len := by
  rw [grow_len]
  split <;> omega

theorem grow_store_of_le (b : Buffer) (n : Nat) (h2 : n + b.off ≤ b.store.length) :
    (b.grow n).store = b.store := by
  by_cases h1 : n + b.off ≤ b.len
  · rw [grow_of_fits b n h1]
  · rw [grow_of_cap b n h1 h2]

theorem grow_cap (b : Buffer) (n : Nat) (hb : b.WF) :
    (b.grow n).store.length
      = if n + b.off ≤ b.store.length then b.store.length else b.off + n := by
  by_cases h2 : n + b.off ≤ b.store.length
  · rw [grow_store_of_le b n h2, if_pos h2]
  · rw [grow_realloc_wf b n hb h2, if_neg h2]
    simp only [List.length_append, List.length_take, List.length_replicate]
    omega

theorem grow_wf (b : Buffer) (n : Nat) (hb : b.WF) : (b.grow n).WF := by
  show (b.grow n).len ≤ (b.grow n).store.length
  rw [grow_len, grow_cap b n hb]
  split <;> split <;> omega

/-- `grow` preserves the logical content. -/
theorem grow_content (b : Buffer) (n : Nat) (hb : b.WF) (i : Nat)
    (hi : i < b.len) : idx (b.grow n).store i = idx b.store i := by
  by_cases h2 : n + b.off ≤ b.store.length
  · rw [grow_store_of_le b n h2]
  · rw [grow_realloc_wf b n hb h2]
    rw [idx_append_left _ _ _ (by simpa [List.length_take] using by omega),
      idx_take _ _ _ hi]

/-- Under the zero-scratch invariant, every byte of the grown storage at or
beyond the old logical length is zero. -/
theorem grow_newzero (b : Buffer) (n : Nat) (hb : b.WF) (hz : b.ZeroScratch)
    (i : Nat) (hi : b.len ≤ i) : idx (b.grow n).store i = 0 := by
  by_cases h2 : n + b.off ≤ b.store.length
  · rw [grow_store_of_le b n h2]
    exact hz i hi
  · rw [grow_realloc_wf b n hb h2]
    rw [idx_append_right _ _ _ (by simp [List.length_take]; omega),
      idx_replicate]

/-! ### Positional views of a three-part list -/

theorem idx_mid (A p B : List Nat) (i : Nat) (h1 : A.length ≤ i)
    (h2 : i < A.length + p.length) :
    idx (A ++ p ++ B) i = idx p (i - A.length) := by
  rw [List.append_assoc, idx_append_right _ _ _ h1,
    idx_append_left _ _ _ (by omega)]

theorem idx_right (A p B : List Nat) (i : Nat)
    (h : A.length + p.length ≤ i) :
    idx (A ++ p ++ B) i = idx B (i - A.length - p.length) := by
  rw [List.append_assoc, idx_append_right _ _ _ (by omega),
    idx_append_right _ _ _ (by omega)]

theorem idx_left (A rest : List Nat) (i : Nat) (h : i < A.length) :
    idx (A ++ rest) i = idx A i :=
  idx_append_left A rest i h

/-! ### Lemmas about `write` -/

/-- `write` in closed form: `grow` guarantees room for `p` after the
offset, so the copy transfers all of `p` and the count is `p.length`. -/
theorem write_eq (b : Buffer) (p : List Nat) :
    b.write p
      = ({ b.grow p.length with
            store := (b.grow p.length).store.take b.off ++ p
              ++ (b.grow p.length).store.drop (b.off + p.length),
            off := b.off + p.length }, p.length) := by
  have h1 := le_grow_len b p.length
  have h2 : (b.grow p.length).off = b.off := grow_off b p.length
  have hmin : min ((b.grow p.length).len - b.off) p.length = p.length := by
    omega
  simp only [Buffer.write, h2, hmin, List.take_length]

theorem write_snd (b : Buffer) (p : List Nat) : (b.write p).2 = p.length := by
  rw [write_eq]

theorem write_fst_off (b : Buffer) (p : List Nat) :
    (b.write p).1.off = b.off + p.length := by
  rw [write_eq]

theorem write_fst_len (b : Buffer) (p : List Nat) :
    (b.write p).1.len = (b.grow p.length).len := by
  rw [write_eq]

theorem write_fst_ext (b : Buffer) (p : List Nat) :
    (b.write p).1.ext = b.ext := by
  rw [write_eq]
  exact grow_ext b p.length

theorem write_fst_store (b : Buffer) (p : List Nat) :
    (b.write p).1.store
      = (b.grow p.length).store.take b.off ++ p
        ++ (b.grow p.length).store.drop (b.off + p.length) := by
  rw [write_eq]

theorem write_take_length (b : Buffer) (p : List Nat) (hb : b.WF) :
    ((b.grow p.length).store.take b.off).length = b.off := by
  have h1 := le_grow_len b p.length
  have h2 := grow_wf b p.length hb
  simp only [List.length_take]
  omega

theorem write_store_length (b : Buffer) (p : List Nat) (hb : b.WF) :
    (b.write p).1.store.length = (b.grow p.length).store.length := by
  have h1 := le_grow_len b p.length
  have h2 := grow_wf b p.length hb
  rw [write_fst_store]
  simp only [List.length_append, List.length_take, List.length_drop]
  omega

theorem write_wf (b : Buffer) (p : List Nat) (hb : b.WF) : (b.write p).1.WF := by
  show (b.write p).1.len ≤ (b.write p).1.store.length
  rw [write_fst_len, write_store_length b p hb]
  exact grow_wf b p.length hb

/-- Bytes of the written range hold exactly the written data. -/
theorem write_content_at (b : Buffer) (p : List Nat) (hb : b.WF) (i : Nat)
    (h1 : b.off ≤ i) (h2 : i < b.off + p.length) :
    idx (b.write p).1.store i = idx p (i - b.off) := by
  have hA := write_take_length b p hb
  rw [write_fst_store, idx_mid _ _ _ _ (by omega) (by omega), hA]

/-- Bytes outside the written range and at or beyond the old length are
zero, provided the scratch was zero. -/
theorem write_newzero (b : Buffer) (p : List Nat) (hb : b.WF)
    (hz : b.ZeroScratch) (i : Nat) (hlen : b.len ≤ i)
    (hout : i < b.off ∨ b.off + p.length ≤ i) :
    idx (b.write p).1.store i = 0 := by
  have hA := write_take_length b p hb
  rw [write_fst_store]
  rcases hout with hlo | hhi
  · rw [idx_left _ _ _ (by simp only [List.length_append, hA]; omega),
      idx_left _ _ _ (by omega), idx_take _ _ _ hlo]
    exact grow_newzero b p.length hb hz i hlen
  · rw [idx_right _ _ _ _ (by omega), hA, idx_drop]
    have : b.off + p.length + (i - b.off - p.length) = i := by omega
    rw [this]
    exact grow_newzero b p.length hb hz i hlen

/-- Reading back a just-written segment: taking `p.length` elements after
dropping the prefix recovers `p`. -/
theorem readback (A p B : List Nat) (L : Nat) (hL : A.length + p.length ≤ L) :
    (((A ++ p ++ B).take L).drop A.length).take p.length = p := by
  rw [List.drop_take, List.append_assoc, List.drop_left, List.take_take,
    min_eq_left (by omega), List.take_left ..]

theorem drop_replicate_append (k : Nat) (X : List Nat) :
    (List.replicate k (0 : Nat) ++ X).drop k = X := by
  have h := List.drop_left (List.replicate k (0 : Nat)) X
  rwa [List.length_replicate] at h

/-- A `Read` whose offset is within the length always returns a result
(never panics). -/
theorem read_isSome (b : Buffer) (plen : Nat) (h : b.off ≤ b.len) :
    ∃ t, b.Read plen = some t := by
  unfold Buffer.Read
  by_cases h1 : plen > 0 ∧ b.len ≤ b.off
  · rw [if_pos h1]
    exact ⟨_, rfl⟩
  · rw [if_neg h1, if_pos h]
    simp only []
    rw [← apply_ite Option.some]
    exact ⟨_, rfl⟩

/-- Writing into a buffer whose cursor and length are both zero leaves
exactly the written bytes as content, with the cursor after them. -/
theorem write_from_zero (c : Buffer) (x : List Nat) (hoff : c.off = 0)
    (hlen : c.len = 0) :
    (c.write x).1.buf = x ∧ (c.write x).1.off = x.length := by
  have hlen' : (c.grow x.length).len = x.length := by
    rw [grow_len, hoff, hlen]
    split <;> omega
  constructor
  · unfold Buffer.buf
    rw [write_fst_store, write_fst_len, hlen', hoff]
    rw [List.take_zero, List.nil_append, List.take_left ..]
  · rw [write_fst_off, hoff, Nat.zero_add]

/-- A `Read` with enough content after the cursor copies exactly `plen`
bytes and advances the cursor by `plen`. -/
theorem read_full (c : Buffer) (plen : Nat) (h : c.off + plen ≤ c.len) :
    ∃ e, c.Read plen
      = some ({ c with off := c.off + plen },
          (c.buf.drop c.off).take plen, e) := by
  have hguard : ¬ (plen > 0 ∧ c.len ≤ c.off) := by
    rintro ⟨h1, h2⟩
    omega
  have hle : c.off ≤ c.len := by omega
  have hmin : min plen (c.len - c.off) = plen := by omega
  unfold Buffer.Read
  rw [if_neg hguard, if_pos hle]
  simp only []
  rw [hmin]
  refine ⟨if 0 < c.len - (c.off + plen) then none else some GoError.eof, ?_⟩
  split <;> rfl

/-! ### Claim theorems -/

/-- Claim C1 (code bug, evaluation at the failing input).  The claim —
backed by the repository's own test `Test_Buffer_Truncate`, case
"truncate beyond len, less then cap" — says `Truncate(size)` with
`size ≥ Len()` must make `Len()` equal `size`.  On a buffer of length 3,
capacity 5 and cursor 0 (`With(make([]byte, 3, 5))`), `Truncate(4)`
returns success but leaves `Len() = 3`: `grow` reserves space after the
cursor rather than after the length, so the extension is silently lost. -/
theorem c1_truncate_extend_eval :
    ((withCap [0, 0, 0] 2).Truncate 4).2 = none ∧
    ((withCap [0, 0, 0] 2).Truncate 4).1.Len = 3 ∧
    ((withCap [0, 0, 0] 2).Truncate 4).1.off = 0 := by
  decide

/-- Claim C5 (code bug, evaluation at the failing input).  First conjunct:
`Read` with a non-empty destination on a drained buffer returns
`(0, EOF)`, as the claim states.  Second conjunct: `Read` with an empty
destination on the same buffer ALSO returns EOF, although the claim and
the function's own doc comment ("err is io.EOF (unless len(p) is zero)")
say it must not. -/
theorem c5_read_empty_dest_eval :
    (Buffer.Read { ext := false, off := 0, store := [], len := 0 } 3
      = some ({ ext := false, off := 0, store := [], len := 0 }, [],
          some GoError.eof)) ∧
    (Buffer.Read { ext := false, off := 0, store := [], len := 0 } 0
      = some ({ ext := false, off := 0, store := [], len := 0 }, [],
          some GoError.eof)) := by
  decide

/-- Claim C6: `ReadAt` at or beyond the length fails with the
out-of-bounds error and copies nothing, for any destination size; at an
in-range offset it returns exactly what `Read` at that offset returns,
with the cursor restored afterwards. -/
theorem c6_readAt_spec (b : Buffer) (plen off0 : Nat) :
    (b.len ≤ off0 →
      b.ReadAt plen off0 = some (b, [], some GoError.outOfBounds)) ∧
    (off0 < b.len →
      ∃ b1 out e, ({ b with off := off0 }).Read plen = some (b1, out, e) ∧
        b.ReadAt plen off0 = some ({ b1 with off := b.off }, out, e)) := by
  constructor
  · intro h
    unfold Buffer.ReadAt
    rw [if_pos h]
  · intro h
    obtain ⟨⟨b1, out, e⟩, hr⟩ :=
      read_isSome { b with off := off0 } plen (le_of_lt h)
    refine ⟨b1, out, e, hr, ?_⟩
    unfold Buffer.ReadAt
    rw [if_neg (by omega), hr]

/-- Witness for C6 on `With([0,1,2])`: offset 6 is rejected out of bounds,
offset 1 delegates to `Read`. -/
theorem c6_readAt_witness :
    ((With [0, 1, 2]).ReadAt 4 6
      = some (With [0, 1, 2], [], some GoError.outOfBounds)) ∧
    (∃ b1 out e,
      ({ With [0, 1, 2] with off := 1 }).Read 2 = some (b1, out, e) ∧
      (With [0, 1, 2]).ReadAt 2 1
        = some ({ b1 with off := (With [0, 1, 2]).off }, out, e)) :=
  ⟨(c6_readAt_spec (With [0, 1, 2]) 4 6).1 (by decide),
   (c6_readAt_spec (With [0, 1, 2]) 2 1).2 (by decide)⟩

/-- Claim C7: `Seek` computes the candidate offset from the start, the
current cursor, or the end of content; a negative candidate fails with
the invalid-argument error leaving the buffer untouched, otherwise the
cursor is set to the candidate (even beyond the length) and returned,
and `Len`/`Cap` never change. -/
theorem c7_seek_spec (b : Buffer) (offset : Int) (whence : Nat)
    (hw : whence ≤ 2) :
    (b.seekCandidate offset whence
      = if whence = 0 then offset
        else if whence = 1 then (b.off : Int) + offset
        else (b.len : Int) + offset) ∧
    (b.seekCandidate offset whence < 0 →
      b.Seek offset whence = (b, 0, some GoError.invalidArg)) ∧
    (0 ≤ b.seekCandidate offset whence →
      (b.Seek offset whence).1.off = (b.seekCandidate offset whence).toNat ∧
      (b.Seek offset whence).2.1 = b.seekCandidate offset whence ∧
      (b.Seek offset whence).2.2 = none ∧
      (b.Seek offset whence).1.Len = b.Len ∧
      (b.Seek offset whence).1.Cap = b.Cap) := by
  refine ⟨?_, ?_, ?_⟩
  · unfold Buffer.seekCandidate
    interval_cases whence <;> simp
  · intro h
    unfold Buffer.Seek
    simp only []
    rw [if_pos h]
  · intro h
    unfold Buffer.Seek
    simp only []
    rw [if_neg (not_lt.mpr h)]
    exact ⟨rfl, rfl, rfl, rfl, rfl⟩

/-- Witness for C7 on `With([0,1,2])` (length 3): `Seek(-5, End)` is
rejected with the invalid-argument error; `Seek(7, Start)` sets the cursor
beyond the length and reports no error. -/
theorem c7_seek_witness :
    ((With [0, 1, 2]).Seek (-5) 2 = (With [0, 1, 2], 0, some GoError.invalidArg)) ∧
    ((With [0, 1, 2]).Seek 7 0).1.off
      = (Buffer.seekCandidate (With [0, 1, 2]) 7 0).toNat ∧
    ((With [0, 1, 2]).Seek 7 0).2.2 = none :=
  ⟨(c7_seek_spec (With [0, 1, 2]) (-5) 2 (by decide)).2.1 (by decide),
   ((c7_seek_spec (With [0, 1, 2]) 7 0 (by decide)).2.2 (by decide)).1,
   ((c7_seek_spec (With [0, 1, 2]) 7 0 (by decide)).2.2 (by decide)).2.2.1⟩

/-- Claim C9, amended: `Close` on any non-nil buffer always returns a nil
error, resets the cursor to zero, and is idempotent (so repeated closes
and closes of zero-value buffers are no-op successes); `closePtr` shows a
non-nil receiver call succeeds. -/
theorem c9_close_spec (b : Buffer) :
    (b.Close).2 = none ∧
    (b.Close).1.off = 0 ∧
    ((b.Close).1.Close) = ((b.Close).1, none) ∧
    closePtr (some b) = some b.Close := by
  refine ⟨?_, ?_, ?_, rfl⟩
  · unfold Buffer.Close
    split <;> rfl
  · unfold Buffer.Close
    split <;> rfl
  · unfold Buffer.Close
    by_cases h : b.ext
    · simp only [if_pos h]
    · simp only [if_neg h]
      rw [drop_replicate_append]

/-- Claim C9 counterexample: as stated, the claim also promises that a
call through a nil buffer reference is a no-op success; the method body
assigns to a field of the receiver first, so a nil receiver panics
(models as `none`) instead of returning success. -/
theorem c9_close_nil_counterexample : closePtr none = none := rfl

/-- Claim C10: with the cursor strictly beyond the logical length, `Read`
with an empty destination panics (the reslice `b.buf[b.off:]` is out of
range) instead of returning a result, while a non-empty destination is
caught by the end-of-data guard. -/
theorem c10_read_past_len (b : Buffer) (plen : Nat) (h : b.len < b.off) :
    (plen = 0 → b.Read plen = none) ∧
    (0 < plen → b.Read plen = some (b, [], some GoError.eof)) := by
  constructor
  · intro hp
    subst hp
    unfold Buffer.Read
    rw [if_neg (by simp), if_neg (by omega)]
  · intro hp
    unfold Buffer.Read
    rw [if_pos ⟨hp, by omega⟩]

set_option maxRecDepth 4000 in
/-- Claim C2 counterexample (the claim as stated, at a concrete reachable
input).  `With([0,1,2])`, `Seek(10, Start)`, then `ReadFrom` of a source
producing 5 bytes `9` and EOF writes the bytes at offsets 10–14 but sets
the length to 3+5 = 8, leaving nonzero bytes in the scratch region beyond
the length.  The following `Truncate(20)` increases the length from 8 to
27 by a capacity reslice, and the newly exposed byte at offset 10 reads
as 9, not 0 — although `Truncate` wrote nothing. -/
theorem c2_zero_fill_counterexample :
    ((((With [0, 1, 2]).Seek 10 0).1.ReadFrom [([9, 9, 9, 9, 9], SFlag.eof)]).map
      (fun r => (r.1.len, (r.1.Truncate 20).1.len,
        idx (r.1.Truncate 20).1.store 10, (r.1.Truncate 20).2)))
      = some (8, 27, 9, none) := by
  decide

/-- Claim C2, amended: for every well-formed buffer whose scratch region
(storage between the logical length and the capacity) is zero — the
invariant maintained by `Write`/`WriteAt`/`Truncate`/`Seek` but breakable
by `ReadFrom` into a hole — every byte newly exposed by a
length-increasing `Truncate`, `WriteAt` or `Write` and not covered by the
operation's own data reads as zero; and the concrete example holds:
`{0,1,2}` with capacity 6, after `WriteAt({1,2}, 8)`, has content exactly
`{0,1,2,0,0,0,0,0,1,2}` with the cursor untouched. -/
theorem c2_zero_fill_spec :
    (∀ (b : Buffer) (size : Int) (i : Nat), b.WF → b.ZeroScratch →
      b.len ≤ i → i < (b.Truncate size).1.len →
      idx (b.Truncate size).1.store i = 0) ∧
    (∀ (b : Buffer) (p : List Nat) (off0 i : Nat), b.WF → b.ZeroScratch →
      b.len ≤ i → (i < off0 ∨ off0 + p.length ≤ i) →
      idx (b.WriteAt p off0).1.store i = 0) ∧
    (∀ (b : Buffer) (p : List Nat) (i : Nat), b.WF → b.ZeroScratch →
      b.len ≤ i → (i < b.off ∨ b.off + p.length ≤ i) →
      idx (b.Write p).1.store i = 0) ∧
    (((withCap [0, 1, 2] 3).WriteAt [1, 2] 8).1.buf
        = [0, 1, 2, 0, 0, 0, 0, 0, 1, 2] ∧
      ((withCap [0, 1, 2] 3).WriteAt [1, 2] 8).2.1 = 2 ∧
      ((withCap [0, 1, 2] 3).WriteAt [1, 2] 8).1.off = 0) := by
  refine ⟨?_, ?_, ?_, by decide⟩
  · intro b size i hb hz hi hlt
    by_cases h1 : size < 0
    · have e1 : b.Truncate size = (b, some GoError.invalidArg) := by
        unfold Buffer.Truncate
        rw [if_pos h1]
      rw [e1] at hlt
      dsimp only [] at hlt
      omega
    · by_cases h2 : b.len < size.toNat
      · have e2 : b.Truncate size = (b.grow (size.toNat - b.len), none) := by
          unfold Buffer.Truncate
          rw [if_neg h1, if_pos h2]
        rw [e2]
        exact grow_newzero b _ hb hz i hi
      · have e3 : b.Truncate size
            = ({ b with
                  store := b.store.take size.toNat
                    ++ List.replicate (b.len - size.toNat) 0
                    ++ b.store.drop b.len,
                  len := size.toNat }, none) := by
          unfold Buffer.Truncate
          rw [if_neg h1, if_neg h2]
        rw [e3] at hlt
        dsimp only [] at hlt
        omega
  · intro b p off0 i hb hz hi hout
    exact write_newzero { b with off := off0 } p hb hz i hi hout
  · intro b p i hb hz hi hout
    exact write_newzero b p hb hz i hi hout

/-- Witness for the universal parts of C2: a truncate-extension exposing a
zero byte, a `WriteAt` past the end leaving the gap byte zero, and a
`Write` at a cursor past the end leaving the hole byte zero. -/
theorem c2_zero_fill_witness :
    idx ((Append (withCap [1, 2] 2)).Truncate 4).1.store 2 = 0 ∧
    idx ((With [1, 2]).WriteAt [5] 4).1.store 3 = 0 ∧
    idx ((Buffer.mk true 3 [1, 2] 2).Write [5]).1.store 2 = 0 :=
  ⟨c2_zero_fill_spec.1 (Append (withCap [1, 2] 2)) 4 2 (by decide)
      (zeroScratch_of_drop _ (by decide)) (by decide) (by decide),
   c2_zero_fill_spec.2.1 (With [1, 2]) [5] 4 3 (by decide)
      (zeroScratch_of_drop _ (by decide)) (by decide) (Or.inl (by decide)),
   c2_zero_fill_spec.2.2.1 (Buffer.mk true 3 [1, 2] 2) [5] 2 (by decide)
      (zeroScratch_of_drop _ (by decide)) (by decide) (Or.inl (by decide))⟩

/-- Claim C4 counterexample: the claim quantifies over every buffer state,
but `Truncate` does not move the cursor, so a nonzero cursor survives
`Truncate(0)` and the following `Write` recreates a hole.  Concretely,
`With([0,1,2,3], Append)` (cursor 4), then `Truncate(0)`, then
`Write([4,5])` yields content `{0,0,0,0,4,5}` with cursor 6, not `{4,5}`
with cursor 2. -/
theorem c4_truncate_write_counterexample :
    ((((Append (With [0, 1, 2, 3])).Truncate 0).1.Write [4, 5]).1.buf
      = [0, 0, 0, 0, 4, 5]) ∧
    ((((Append (With [0, 1, 2, 3])).Truncate 0).1.Write [4, 5]).1.off = 6) := by
  decide

/-- Claim C4, amended: for every buffer whose cursor is at zero,
`Truncate(0)` followed by `Write(x)` yields content exactly `x`, cursor
at `len(x)`, with both operations succeeding. -/
theorem c4_truncate_zero_write (b : Buffer) (x : List Nat)
    (h0 : b.off = 0) :
    ((b.Truncate 0).1.Write x).1.buf = x ∧
    ((b.Truncate 0).1.Write x).1.off = x.length ∧
    (b.Truncate 0).2 = none ∧
    ((b.Truncate 0).1.Write x).2.2 = none := by
  have h00 : ¬ ((0 : Int) < 0) := by decide
  have h01 : ¬ (b.len < (0 : Int).toNat) := by omega
  have ht : b.Truncate 0
      = ({ b with
            store := b.store.take (0 : Int).toNat
              ++ List.replicate (b.len - (0 : Int).toNat) 0
              ++ b.store.drop b.len,
            len := (0 : Int).toNat }, none) := by
    unfold Buffer.Truncate
    rw [if_neg h00, if_neg h01]
  rw [ht]
  have hw := write_from_zero
    ({ b with
        store := b.store.take (0 : Int).toNat
          ++ List.replicate (b.len - (0 : Int).toNat) 0
          ++ b.store.drop b.len,
        len := (0 : Int).toNat }) x h0 rfl
  exact ⟨hw.1, hw.2, rfl, rfl⟩

/-- Witness for C4 on `With([7,7], Offset 0)` (cursor 0) and `x = [4,5]`. -/
theorem c4_truncate_zero_write_witness :
    (((With [7, 7]).Truncate 0).1.Write [4, 5]).1.buf = [4, 5] ∧
    (((With [7, 7]).Truncate 0).1.Write [4, 5]).1.off = 2 ∧
    ((With [7, 7]).Truncate 0).2 = none ∧
    (((With [7, 7]).Truncate 0).1.Write [4, 5]).2.2 = none :=
  c4_truncate_zero_write (With [7, 7]) [4, 5] rfl

/-- Claim C8: for every well-formed buffer and every byte sequence `p`,
`Write(p)`, `Seek(-len(p), Current)` (which succeeds) and then a `Read`
into a destination of length `len(p)` copies back exactly `p`. -/
theorem c8_write_seek_read (b : Buffer) (p : List Nat) (hb : b.WF) :
    ((b.Write p).1.Seek (-(p.length : Int)) 1).2.2 = none ∧
    ∃ b3 e, (((b.Write p).1.Seek (-(p.length : Int)) 1).1).Read p.length
      = some (b3, p, e) := by
  have hWfst : (b.Write p).1 = (b.write p).1 := rfl
  have hol : b.off + p.length ≤ (b.write p).1.len := by
    rw [write_fst_len]
    exact le_grow_len b p.length
  have hcand : (b.write p).1.seekCandidate (-(p.length : Int)) 1
      = (b.off : Int) := by
    unfold Buffer.seekCandidate
    rw [if_neg (by decide), if_pos rfl, write_fst_off]
    push_cast
    ring
  have hseek : (b.write p).1.Seek (-(p.length : Int)) 1
      = ({ (b.write p).1 with off := b.off }, (b.off : Int), none) := by
    unfold Buffer.Seek
    rw [hcand]
    simp only []
    rw [if_neg (by omega)]
    rw [Int.toNat_natCast]
  have hout : (((b.write p).1.store.take (b.write p).1.len).drop b.off).take
      p.length = p := by
    have hA := write_take_length b p hb
    rw [write_fst_store, write_fst_len]
    have h := readback ((b.grow p.length).store.take b.off) p
      ((b.grow p.length).store.drop (b.off + p.length))
      ((b.grow p.length).len) (by rw [hA]; exact le_grow_len b p.length)
    rwa [hA] at h
  rw [hWfst, hseek]
  refine ⟨rfl, ?_⟩
  obtain ⟨e, hre⟩ := read_full ({ (b.write p).1 with off := b.off })
    p.length hol
  dsimp only [Buffer.buf] at hre
  rw [hout] at hre
  exact ⟨_, e, hre⟩

/-- Witness for C8 on `With([7,7,7])` after seeking to 1, with
`p = [5,6]`. -/
theorem c8_write_seek_read_witness :
    ∃ b3 e,
      ((((Buffer.mk true 1 [7, 7, 7] 3).Write [5, 6]).1.Seek (-(2 : Int)) 1).1).Read 2
        = some (b3, [5, 6], e) := by
  have h := c8_write_seek_read (Buffer.mk true 1 [7, 7, 7] 3) [5, 6] (by decide)
  exact h.2

/-- Witness for C10 on a buffer of length 3 with cursor 5. -/
theorem c10_read_past_len_witness :
    (Buffer.Read { ext := true, off := 5, store := [0, 1, 2], len := 3 } 0
      = none) ∧
    (Buffer.Read { ext := true, off := 5, store := [0, 1, 2], len := 3 } 2
      = some ({ ext := true, off := 5, store := [0, 1, 2], len := 3 }, [],
          some GoError.eof)) :=
  ⟨(c10_read_past_len { ext := true, off := 5, store := [0, 1, 2], len := 3 }
      0 (by decide)).1 rfl,
   (c10_read_past_len { ext := true, off := 5, store := [0, 1, 2], len := 3 }
      2 (by decide)).2 (by decide)⟩

/-! ### Lemmas about `ReadFrom` -/

/-- One `ReadFrom` iteration entered with the cursor at the end of content
succeeds (both potential panics are out of reach) and leaves the cursor at
the end of content again. -/
theorem readFromStep_spec (b : Buffer) (c : List Nat) (hb : b.WF)
    (hoff : b.off = b.len) (hc : c.length ≤ MinRead) :
    ∃ b2, b.readFromStep c = some b2 ∧ b2.WF ∧ b2.off = b2.len := by
  have hmr : MinRead = 512 := rfl
  have hg_off : (b.grow MinRead).off = b.off := grow_off b MinRead
  have hg_len : (b.grow MinRead).len = b.off + MinRead := by
    rw [grow_len, if_neg (by omega)]
  have hg_wf := grow_wf b MinRead hb
  have hcap : b.len + c.length ≤ (b.grow MinRead).store.length := by
    have h1 : (b.grow MinRead).len ≤ (b.grow MinRead).store.length := hg_wf
    omega
  unfold Buffer.readFromStep
  simp only []
  rw [if_pos hc, if_pos hcap]
  refine ⟨_, rfl, ?_, ?_⟩
  · show b.len + c.length ≤ _
    simp only [List.length_append, List.length_take, List.length_drop]
    have h1 : (b.grow MinRead).len ≤ (b.grow MinRead).store.length := hg_wf
    omega
  · show (b.grow MinRead).off + c.length = b.len + c.length
    omega

/-- The `ReadFrom` loop, entered with the cursor at the end of content,
runs through a prefix of plain chunks and stops at the first chunk whose
flag is EOF (nil error) or a source failure (propagated error), returning
the accumulated byte count; the final buffer has its length equal to the
cursor. -/
theorem readFromLoop_spec :
    ∀ (pre : List (List Nat × SFlag)) (cf : List Nat × SFlag)
      (rest : List (List Nat × SFlag)) (b : Buffer) (t : Nat),
      b.WF → b.off = b.len →
      (∀ x ∈ pre, x.2 = SFlag.ok ∧ x.1.length ≤ MinRead) →
      cf.1.length ≤ MinRead → cf.2 ≠ SFlag.ok →
      ∃ b2, b.readFromLoop (pre ++ cf :: rest) t
          = some (b2, t + ((pre.map fun x => x.1.length).sum + cf.1.length),
              if cf.2 = SFlag.fail then some GoError.srcFail else none)
        ∧ b2.off = b2.len
  | [], (ch, fl), rest, b, t, hb, hoff, _, hc, hcf => by
    obtain ⟨b2, hstep, _, hol2⟩ := readFromStep_spec b ch hb hoff hc
    refine ⟨b2, ?_, hol2⟩
    show Buffer.readFromLoop b ((ch, fl) :: rest) t = _
    rw [Buffer.readFromLoop, hstep]
    cases fl with
    | ok => exact absurd rfl hcf
    | eof => simp
    | fail => simp
  | x :: pre, cf, rest, b, t, hb, hoff, hpre, hc, hcf => by
    obtain ⟨hx2, hx1⟩ := hpre x (List.mem_cons_self x pre)
    obtain ⟨ch, fl⟩ := x
    obtain ⟨b2, hstep, hwf2, hol2⟩ := readFromStep_spec b ch hb hoff hx1
    obtain ⟨b3, hloop, hol3⟩ := readFromLoop_spec pre cf rest b2 (t + ch.length)
      hwf2 hol2 (fun y hy => hpre y (List.mem_cons_of_mem _ hy)) hc hcf
    refine ⟨b3, ?_, hol3⟩
    show Buffer.readFromLoop b (((ch, fl) :: pre) ++ cf :: rest) t = _
    dsimp only [] at hx2
    subst hx2
    rw [List.cons_append, Buffer.readFromLoop, hstep]
    dsimp only []
    rw [hloop]
    have harith : t + ch.length + ((pre.map fun y => y.1.length).sum + cf.1.length)
        = t + ((((ch, SFlag.ok) :: pre).map fun y => y.1.length).sum
            + cf.1.length) := by
      simp only [List.map_cons, List.sum_cons]
      omega
    rw [harith]

/-! ### Remaining claim theorems -/

set_option maxRecDepth 4000 in
/-- Claim C3 counterexample (the claim as stated, at a concrete input).
`With([0,1,2])` has cursor 0 and length 3.  `ReadFrom` of a source
producing 1 byte (fewer than the 512-byte working increment) with EOF
returns `(1, nil)`, but the resulting length is `3 + 1 = 4` while the
cursor is 1: the length is trimmed to (pre-iteration length) + n, which is
the cursor only if the cursor started at the end of content. -/
theorem c3_trim_counterexample :
    ((With [0, 1, 2]).ReadFrom [([9], SFlag.eof)]).map
      (fun r => (r.1.len, r.1.off, r.2.1, r.2.2)) = some (4, 1, 1, none) := by
  decide

/-- Claim C3, amended: when `ReadFrom` starts with the cursor at the end
of content (the state in which its trimming indeed keeps the length equal
to the cursor), it consumes source chunks until the source reports EOF —
returning the total byte count with a nil error — or fails — propagating
the error with the partial total — and the final length equals the final
cursor.  In general (cursor not at end of content) the length becomes
(pre-iteration length) + n instead of the cursor. -/
theorem c3_readfrom_spec (pre : List (List Nat × SFlag))
    (cf : List Nat × SFlag) (rest : List (List Nat × SFlag)) (b : Buffer)
    (hb : b.WF) (hoff : b.off = b.len)
    (hpre : ∀ x ∈ pre, x.2 = SFlag.ok ∧ x.1.length ≤ MinRead)
    (hc : cf.1.length ≤ MinRead) (hcf : cf.2 ≠ SFlag.ok) :
    ∃ b2, b.ReadFrom (pre ++ cf :: rest)
        = some (b2, (pre.map fun x => x.1.length).sum + cf.1.length,
            if cf.2 = SFlag.fail then some GoError.srcFail else none)
      ∧ b2.off = b2.len := by
  obtain ⟨b2, h, hol⟩ := readFromLoop_spec pre cf rest b 0 hb hoff hpre hc hcf
  refine ⟨b2, ?_, hol⟩
  unfold Buffer.ReadFrom
  rw [h, Nat.zero_add]

/-- Witness for C3: an empty buffer reading a 2-byte chunk and then a
1-byte chunk with EOF totals 3 bytes, nil error, length equal to
cursor. -/
theorem c3_readfrom_witness :
    ∃ b2, (With []).ReadFrom [([1, 2], SFlag.ok), ([7], SFlag.eof)]
        = some (b2, 3, none) ∧ b2.off = b2.len := by
  have h := c3_readfrom_spec [([1, 2], SFlag.ok)] ([7], SFlag.eof) []
    (With []) (by decide) rfl (by decide) (by decide) (by decide)
  simpa using h

end Flexbuf
